import Mathlib

set_option maxRecDepth 4000

/- Verification of the AuraMind companion-AI dialogue engine: the
conversation-history management and fallback behaviour of `AIBrain` /
`LocalAIBrain`, the wake-word filter of `VoiceHandler`, the local rule-based
responder and its math sub-handler, and the speech output queue of
`SpeechEngine`.  Python lists of message dicts are modelled as `List Turn`,
Python strings as `String` / `List Char`, and the pseudo-random
`random.choice` as an arbitrary index reduced modulo the pool size. -/

namespace AuraMind

/-- One message of the conversation history: the Python dict
`{"role": ..., "content": ...}`. -/
structure Turn where
  role : String
  content : String
  deriving DecidableEq, Repr

namespace Config

/-- config.py line 26: `MAX_CONVERSATION_HISTORY: int = 10`. -/
def MAX_CONVERSATION_HISTORY : Nat := 10

/-- config.py line 27: `WAKE_WORDS: list = ["hey haro", "haro", "ai"]`. -/
def WAKE_WORDS : List String := ["hey haro", "haro", "ai"]

/-- config.py line 30: `AI_NAME: str = "Haro"`. -/
def AI_NAME : String := "Haro"

end Config

/-- Python list slice `l[-k:]`: for `k = 0` this is `l[0:]`, the whole list
(`-0 == 0`), otherwise the last `k` elements. -/
def pyTail (k : Nat) (l : List α) : List α :=
  if k = 0 then l else l.drop (l.length - k)

/-- `AIBrain._manage_conversation_history` (ai_brain.py 114-124) and the
identical `LocalAIBrain._manage_conversation_history` (local_ai_brain.py
243-252): with `max_messages = B * 2 + 1`, when the history is longer the
code keeps `[history[0]] + history[-(max_messages - 1):]`.  `h.take 1`
equals `[history[0]]` on the (guarded, hence nonempty) trim path. -/
def manageConversationHistory (B : Nat) (h : List Turn) : List Turn :=
  let maxMessages := B * 2 + 1
  if h.length > maxMessages then h.take 1 ++ pyTail (maxMessages - 1) h else h

/-- The three fixed fallback strings of `_get_error_response`
(ai_brain.py 126-134, and the same list in local_ai_brain.py 254-261). -/
def errorResponses : List String :=
  ["I'm sorry, I'm having trouble understanding right now. Could you try again?",
   "I seem to be experiencing some technical difficulties. Please give me a moment.",
   "I'm not quite sure how to respond to that. Could you rephrase your question?"]

/-- `random.choice(pool)` modelled by an arbitrary index `k` reduced modulo
the pool size. -/
def pick (k : Nat) (pool : List String) : String := pool.getD (k % pool.length) ""

/-- `_get_error_response` returning a pseudo-random member of
`errorResponses`. -/
def getErrorResponse (k : Nat) : String := pick k errorResponses

/-- `process_input` (ai_brain.py 64-96; local_ai_brain.py 136-168 is the same
control flow).  `res` is the outcome of the generation step
(`_generate_response` / `_generate_local_response`): `Except.ok r` when it
returns reply `r`, `Except.error ()` when it raises.  The user turn is
appended first; on success the assistant turn is appended and the history
trimmed; when generation raises, the `except` branch leaves the already
appended user turn in place, skips the trim, and returns a pseudo-random
apology (index `k`).  Totality of this function models that no exception
escapes `process_input`. -/
def processInput (B : Nat) (res : Except Unit String) (k : Nat)
    (hist : List Turn) (input : String) : String × List Turn :=
  let hist1 := hist ++ [⟨"user", input⟩]
  match res with
  | .ok r => (r, manageConversationHistory B (hist1 ++ [⟨"assistant", r⟩]))
  | .error _ => (getErrorResponse k, hist1)

/-- One scripted `process_input` call: the utterance, the generation outcome,
and the random index used on the failure path. -/
abbrev Call := String × Except Unit String × Nat

/-- A sequence of `process_input` calls threaded through the history. -/
def runCalls (B : Nat) (calls : List Call) (h : List Turn) : List Turn :=
  match calls with
  | [] => h
  | (input, res, k) :: rest => runCalls B rest (processInput B res k h input).2

/-- Number of turns of the given role, `count(role)` over the history. -/
def countRole (r : String) (h : List Turn) : Nat :=
  h.countP (fun t => t.role == r)

/-- The in-memory state shared by both brains: the conversation history and
the `user_context` dict (modelled as an association list). -/
structure BrainState where
  conversationHistory : List Turn
  userContext : List (String × String)
  deriving DecidableEq, Repr

/-- `_initialize_conversation` (ai_brain.py 55-62, local_ai_brain.py
127-134): appends the system turn to the history. -/
def initConversation (sys : Turn) (h : List Turn) : List Turn := h ++ [sys]

/-- `reset_conversation` (ai_brain.py 145-149, local_ai_brain.py 273-277):
the history is set to `[]` and `_initialize_conversation` appends the system
turn again; `user_context` is not touched. -/
def resetConversation (sys : Turn) (st : BrainState) : BrainState :=
  { st with conversationHistory := initConversation sys [] }

/-- The `total_exchanges` field of `get_conversation_summary`
(ai_brain.py 136-143, local_ai_brain.py 263-271):
`(len(history) - 1) // 2` with Python floor division. -/
def totalExchanges (h : List Turn) : Int := Int.fdiv ((h.length : Int) - 1) 2

/-- `SpeechEngine.speak` (speech_engine.py 94-116) acting on the pending
FIFO: blank text (`not text.strip()`) is a no-op; with `interrupt = true`
the queue is fully drained before the new text is put; otherwise the text is
appended at the tail. -/
def speak (text : String) (interrupt : Bool) (q : List String) : List String :=
  if text.data.all Char.isWhitespace then q
  else (if interrupt then [] else q) ++ [text]

/-- `SpeechEngine._speech_worker` (speech_engine.py 61-76): the worker
consumes the FIFO front to back, rendering one segment at a time; the value
is the rendered order. -/
def runWorker : List String → List String
  | [] => []
  | t :: rest => t :: runWorker rest

/-- `SpeechEngine.wait_until_done` (speech_engine.py 147-162).  The body is
`self.speech_queue.join(); return True`: the `timeout` argument is never
read, and `Queue.join()` blocks until every queued item has been processed.
The observable outcome therefore depends only on whether the queue ever
drains: `some true` when it does, `none` — the call never returns — when it
does not.  The `except` branch that returns `False` is unreachable without
an exception injected from outside. -/
def waitUntilDone (timeout : Option Nat) (queueEverDrains : Bool) : Option Bool :=
  if queueEverDrains then some true else none

/-- Python `str.lower()` (ASCII case mapping, the range used here). -/
def lowerL (l : List Char) : List Char := l.map Char.toLower

/-- Whitespace test used by Python `str.strip()`. -/
def isWs (c : Char) : Bool := c.isWhitespace

/-- Python `str.strip()`: whitespace removed from both ends. -/
def trimWs (l : List Char) : List Char :=
  ((l.dropWhile isWs).reverse.dropWhile isWs).reverse

/-- Python `pat in s`: substring containment. -/
def containsSub (pat : List Char) : List Char → Bool
  | [] => pat.isEmpty
  | c :: rest => pat.isPrefixOf (c :: rest) || containsSub pat rest

/-- Python `s.replace(pat, "")` — every non-overlapping occurrence removed,
scanning left to right — written with fuel; `fuel = length + 1` always
suffices because each step consumes at least one character. -/
def replaceDropF : Nat → List Char → List Char → List Char
  | 0, _, _ => []
  | _ + 1, _, [] => []
  | f + 1, pat, c :: rest =>
    if pat.isPrefixOf (c :: rest) && !pat.isEmpty then
      replaceDropF f pat ((c :: rest).drop pat.length)
    else c :: replaceDropF f pat rest

/-- Python `s.replace(pat, "")` at adequate fuel. -/
def replaceDrop (pat s : List Char) : List Char := replaceDropF (s.length + 1) pat s

/-- `VoiceHandler._contains_wake_word` (voice_handler.py 131-133):
`any(wake_word in text for wake_word in Config.WAKE_WORDS)`. -/
def containsWakeWord (text : List Char) : Bool :=
  Config.WAKE_WORDS.any (fun w => containsSub w.data text)

/-- `VoiceHandler._remove_wake_words` (voice_handler.py 135-139):
`text = text.replace(wake_word, "").strip()` for each configured phrase in
order. -/
def removeWakeWords (text : List Char) : List Char :=
  Config.WAKE_WORDS.foldl (fun t w => trimWs (replaceDrop w.data t)) text

/-- The fixed acknowledgement prompt of voice_handler.py line 122. -/
def ackPrompt : String := "Hello! How can I help you?"

/-- `VoiceHandler._process_audio` (voice_handler.py 105-129) after a
successful recognition of `text`: the argument passed to
`on_speech_detected` (`some t`), or `none` when the utterance is discarded
because no wake word occurs. -/
def processAudio (text : String) : Option String :=
  let lowered := lowerL text.data
  if containsWakeWord lowered then
    let cleaned := trimWs (removeWakeWords lowered)
    if cleaned.isEmpty then some ackPrompt else some (String.mk cleaned)
  else none

/-- `HaroAI._on_speech_detected` (main.py 113-135) passes the forwarded text
straight to `ai_brain.process_input`, whose generation step always runs the
responder; hence the responder is invoked exactly when `_process_audio`
forwards some text. -/
def responderInvoked (text : String) : Bool := (processAudio text).isSome

/-- The regex character class `[\d\.\+\-\*/\(\)\s]` of `_handle_math`
(local_ai_brain.py line 223). -/
def isMathChar (c : Char) : Bool :=
  c.isDigit || c == '.' || c == '+' || c == '-' || c == '*' || c == '/' ||
    c == '(' || c == ')' || c.isWhitespace

/-- `re.search(r'([\d\.\+\-\*/\(\)\s]+)', s)`: the leftmost maximal run of
class characters, `none` when no character of the class occurs at all. -/
def firstRun : List Char → Option (List Char)
  | [] => none
  | c :: rest =>
    if isMathChar c then some (List.takeWhile isMathChar (c :: rest))
    else firstRun rest

/-- The `allowed_chars` set `'0123456789+-*/.() '` of `_handle_math`
(local_ai_brain.py line 229).  Note it has a plain space but no tab or
newline, unlike the regex's `\s`. -/
def allowedChar (c : Char) : Bool :=
  c.isDigit || c == '+' || c == '-' || c == '*' || c == '/' || c == '.' ||
    c == '(' || c == ')' || c == ' '

/-- Fast binary exponentiation on `Nat`; correct whenever `fuel > log2 e`,
so `fuel = e + 1` always is. -/
def npow2 : Nat → Nat → Nat → Nat
  | 0, _, _ => 1
  | f + 1, b, e =>
    if e = 0 then 1
    else
      let h := npow2 f b (e / 2)
      if e % 2 = 0 then h * h else h * h * b

/-- Fast binary exponentiation on `Int`; correct whenever `fuel > log2 e`. -/
def ipow : Nat → Int → Nat → Int
  | 0, _, _ => 1
  | f + 1, b, e =>
    if e = 0 then 1
    else
      let h := ipow f b (e / 2)
      if e % 2 = 0 then h * h else h * h * b

/-- Exact rational addition (via `mkRat`; Batteries' own `Rat.add` etc. are
`@[irreducible]` and do not evaluate inside `decide`). -/
def qAdd (a b : Rat) : Rat :=
  mkRat (a.num * (b.den : Int) + b.num * (a.den : Int)) (a.den * b.den)

/-- Exact rational negation. -/
def qNeg (a : Rat) : Rat := mkRat (-a.num) a.den

/-- Exact rational subtraction. -/
def qSub (a b : Rat) : Rat := qAdd a (qNeg b)

/-- Exact rational multiplication. -/
def qMul (a b : Rat) : Rat := mkRat (a.num * b.num) (a.den * b.den)

/-- Exact rational inverse (`0⁻¹ = 0`, never reached with a zero divisor). -/
def qInv (a : Rat) : Rat :=
  if a.num < 0 then mkRat (-(a.den : Int)) a.num.natAbs
  else mkRat (a.den : Int) a.num.natAbs

/-- Exact rational division. -/
def qDiv (a b : Rat) : Rat := qMul a (qInv b)

/-- `Int` embedded in `Rat`. -/
def qofInt (n : Int) : Rat := Rat.ofInt n

/-- Exact rational power; correct whenever `fuel > log2 e`. -/
def qpow : Nat → Rat → Nat → Rat
  | 0, _, _ => qofInt 1
  | f + 1, b, e =>
    if e = 0 then qofInt 1
    else
      let h := qpow f b (e / 2)
      if e % 2 = 0 then qMul h h else qMul (qMul h h) b

/-- Boolean `a < b` on rationals by cross multiplication. -/
def qLt (a b : Rat) : Bool := a.num * (b.den : Int) < b.num * (a.den : Int)

/-- Boolean `a ≤ b` on rationals by cross multiplication. -/
def qLe (a b : Rat) : Bool := a.num * (b.den : Int) ≤ b.num * (a.den : Int)

/-- Absolute value on rationals. -/
def qAbs (a : Rat) : Rat := if a.num < 0 then qNeg a else a

/-- Floor of a rational, as an integer. -/
def qFloorI (a : Rat) : Int := Int.fdiv a.num (a.den : Int)

/-- Truncation of a rational toward zero, as an integer. -/
def qTruncI (a : Rat) : Int :=
  if a.num < 0 then -(Int.fdiv (-a.num) (a.den : Int)) else Int.fdiv a.num (a.den : Int)

/-- `2 ^ e` as an exact rational, for `e : Int`. -/
def pow2Q (e : Int) : Rat :=
  if e < 0 then mkRat 1 (npow2 ((-e).toNat + 1) 2 (-e).toNat)
  else qofInt (Int.ofNat (npow2 (e.toNat + 1) 2 e.toNat))

/-- `10 ^ e` as an exact rational, for `e : Int`. -/
def pow10Q (e : Int) : Rat :=
  if e < 0 then mkRat 1 (npow2 ((-e).toNat + 1) 10 (-e).toNat)
  else qofInt (Int.ofNat (npow2 (e.toNat + 1) 10 e.toNat))

/-- Round a rational to the nearest integer, ties to even — the rounding
IEEE-754 binary64 arithmetic uses. -/
def rne (a : Rat) : Int :=
  let n := qFloorI a
  let num2 := 2 * (a.num - n * (a.den : Int))
  if (a.den : Int) < num2 then n + 1
  else if num2 < (a.den : Int) then n
  else if n % 2 = 0 then n else n + 1

/-- An IEEE-754 binary64 value ("Python float"): NaN, signed infinities,
signed zeros, or a nonzero finite value stored as the exact rational it
represents (every finite double is a dyadic rational; values are only ever
constructed through `roundF64`, so they are representable by
construction). -/
inductive F64 where
  | nan
  | inf (neg : Bool)
  | zero (neg : Bool)
  | fin (q : Rat)
  deriving DecidableEq, Repr

/-- Smallest positive magnitude that rounds to infinity:
`(2^53 - 1/2) * 2^971`. -/
def ovfQ : Rat := qMul (qofInt (Int.ofNat (npow2 64 2 54 - 1))) (pow2Q 970)

/-- Largest positive magnitude that rounds to zero: `2^-1075` (the halfway
point to the smallest subnormal; the tie goes to the even mantissa 0). -/
def tinyQ : Rat := pow2Q (-1075)

/-- Binary search for `e` with `2^e ≤ a < 2^(e+1)`, given the invariant
`2^lo ≤ a < 2^hi`; 16 steps cover the whole double exponent range. -/
def elog2In : Nat → Int → Int → Rat → Int
  | 0, lo, _, _ => lo
  | f + 1, lo, hi, a =>
    if hi ≤ lo + 1 then lo
    else
      let mid := Int.fdiv (lo + hi) 2
      if qLe (pow2Q mid) a then elog2In f mid hi a else elog2In f lo mid a

/-- Round an exact rational to the nearest IEEE-754 binary64 value
(round-to-nearest, ties-to-even), with gradual underflow to subnormals and
overflow to infinity — exactly the rounding CPython's float arithmetic
performs. -/
def roundF64 (q : Rat) : F64 :=
  if q.num = 0 then .zero false
  else
    let s := q.num < 0
    let a := qAbs q
    if qLe ovfQ a then .inf s
    else if qLe a tinyQ then .zero s
    else
      let e := elog2In 16 (-1076) 1025 a
      let te : Int := if e - 52 < -1074 then -1074 else e - 52
      let m := rne (qMul a (pow2Q (-te)))
      if m = 0 then .zero s
      else
        let v := qMul (qofInt m) (pow2Q te)
        .fin (if s then qNeg v else v)

/-- Sign bit of a float. -/
def F64.sign : F64 → Bool
  | .nan => false
  | .inf n => n
  | .zero n => n
  | .fin q => q.num < 0

/-- Exact value of a finite float (`0` for specials, never used there). -/
def F64.qval : F64 → Rat
  | .fin q => q
  | _ => qofInt 0

/-- Is this float a (signed) zero? -/
def F64.isZeroV : F64 → Bool
  | .zero _ => true
  | _ => false

/-- Does this float hold an integral value? -/
def F64.isIntegralV : F64 → Bool
  | .zero _ => true
  | .fin q => q.den == 1
  | _ => false

/-- IEEE binary64 addition: exact sum, then one rounding.  Exact
cancellation gives `+0` (round-to-nearest mode); `(-0) + (-0) = -0`. -/
def addF (x y : F64) : F64 :=
  match x, y with
  | .nan, _ => .nan
  | _, .nan => .nan
  | .inf s, .inf t => if s == t then .inf s else .nan
  | .inf s, _ => .inf s
  | _, .inf t => .inf t
  | .zero s, .zero t => .zero (s && t)
  | a, b =>
    let r := qAdd a.qval b.qval
    if r.num = 0 then .zero false else roundF64 r

/-- IEEE binary64 negation. -/
def negF : F64 → F64
  | .nan => .nan
  | .inf s => .inf (!s)
  | .zero s => .zero (!s)
  | .fin q => .fin (qNeg q)

/-- IEEE binary64 subtraction. -/
def subF (x y : F64) : F64 := addF x (negF y)

/-- IEEE binary64 multiplication (sign of zero and infinity results follows
the xor rule; `inf * 0 = nan`). -/
def mulF (x y : F64) : F64 :=
  match x, y with
  | .nan, _ => .nan
  | _, .nan => .nan
  | .inf _, .zero _ => .nan
  | .zero _, .inf _ => .nan
  | .inf s, .inf t => .inf (s != t)
  | .inf s, .fin q => .inf (s != decide (q.num < 0))
  | .fin q, .inf t => .inf (decide (q.num < 0) != t)
  | .zero s, .zero t => .zero (s != t)
  | .zero s, .fin q => .zero (s != decide (q.num < 0))
  | .fin q, .zero t => .zero (decide (q.num < 0) != t)
  | .fin p, .fin q => roundF64 (qMul p q)

/-- IEEE binary64 division; the caller has already excluded zero divisors
(Python raises `ZeroDivisionError` before IEEE semantics would apply). -/
def divFRaw (x y : F64) : F64 :=
  match x, y with
  | .nan, _ => .nan
  | _, .nan => .nan
  | .inf _, .inf _ => .nan
  | .inf s, y' => .inf (s != y'.sign)
  | .zero s, y' => .zero (s != y'.sign)
  | .fin q, .inf t => .zero (decide (q.num < 0) != t)
  | .fin q, .zero t => .inf (decide (q.num < 0) != t)
  | .fin p, .fin q => roundF64 (qDiv p q)

/-- C `fmod` on binary64 (exact, never rounds), for finite or infinite
operands with a nonzero divisor: `fmod(x, ±inf) = x` for finite `x`,
`fmod(±inf, y) = nan`; the result keeps the dividend's sign. -/
def fmodF (x y : F64) : F64 :=
  match x, y with
  | .nan, _ => .nan
  | _, .nan => .nan
  | .inf _, _ => .nan
  | x', .inf _ => x'
  | .zero s, _ => .zero s
  | .fin p, y' =>
    let q := y'.qval
    let t := qTruncI (qDiv p q)
    let r := qSub p (qMul (qofInt t) q)
    if r.num = 0 then .zero (p.num < 0) else .fin r

/-- Python `float // float`, transcribed from CPython's `float_divmod`
(Objects/floatobject.c): `mod = fmod(x, y)`; `div = (x - mod) / y`; when
`mod` is nonzero with sign opposite to `y`, `mod += y; div -= 1`; then the
floor of `div` (with the half-ulp correction CPython applies) — or
`copysign(0.0, x / y)` when `div` is zero.  The divisor is nonzero (Python
raises `ZeroDivisionError` first). -/
def floordivF (x y : F64) : F64 :=
  let mod := fmodF x y
  match mod with
  | .nan => .nan
  | _ =>
    let needAdj :=
      (match mod with | .fin _ => true | _ => false) && (mod.sign != y.sign)
    let div0 := divFRaw (subF x mod) y
    let div1 := if needAdj then subF div0 (.fin (qofInt 1)) else div0
    match div1 with
    | .nan => .nan
    | .inf s => .inf s
    | .zero _ => .zero (x.sign != y.sign)
    | .fin d =>
      let fd0 := qFloorI d
      let fd := if qLt (mkRat 1 2) (qSub d (qofInt fd0)) then fd0 + 1 else fd0
      if fd = 0 then .zero (x.sign != y.sign) else roundF64 (qofInt fd)

/-- CPython `float(int)` (`PyLong_AsDouble`): round-half-even, raising
`OverflowError` (`none`) when the integer rounds beyond the double range. -/
def intToF (n : Int) : Option F64 :=
  if n = 0 then some (.zero false)
  else
    match roundF64 (qofInt n) with
    | .inf _ => none
    | f => some f

/-- A Python value reachable through `_handle_math`'s character filter: an
unbounded `int`, a binary64 `float`, or the empty tuple `()` (the only
tuple constructible without commas; `() + ()` and `() * n` stay empty). -/
inductive PyVal where
  | int (n : Int)
  | float (f : F64)
  | tup
  deriving DecidableEq, Repr

/-- Outcome of a CPython evaluation step: a value, an exception
(`SyntaxError`, `TypeError`, `ZeroDivisionError`, `OverflowError` — the
source's `except: pass` treats them all alike), or `libm`: a finite float
raised to a finite non-integral power.  CPython delegates that case to the
platform's C `pow()` (returning a complex number for negative bases), and
the C standard does not require correctly rounded results, so the reply
string there is not determined by the source alone; these evaluations are
kept apart and the universal theorems say nothing about them. -/
inductive EvalRes where
  | val (v : PyVal)
  | exc
  | libm
  deriving DecidableEq, Repr

/-- Is this float strictly positive? -/
def F64.isPos : F64 → Bool
  | .inf t => !t
  | .fin q => 0 < q.num
  | _ => false

/-- Does this float hold an odd integer? -/
def F64.isOddInt : F64 → Bool
  | .fin q => q.den == 1 && decide (q.num % 2 ≠ 0)
  | _ => false

/-- Is the absolute value greater than one? -/
def F64.absGtOne : F64 → Bool
  | .inf _ => true
  | .fin q => qLt (qofInt 1) (qAbs q)
  | _ => false

/-- Python `float ** float`, transcribed from CPython's `float_pow`
(Objects/floatobject.c) and the C99 `pow` special cases it sorts out
itself: `x ** 0 = 1.0` (even for NaN `x`), `1.0 ** y = 1.0` (even for NaN
`y`), NaN propagation, the infinite-exponent and infinite-base rules,
`0.0 ** negative` raising `ZeroDivisionError`, and for a finite base with a
finite integral exponent the exact power rounded half-even (what a
correctly rounded `pow` returns), with `OverflowError` when a finite true
result overflows and silent underflow to zero.  A finite non-integral
exponent goes to the platform's `pow` — `EvalRes.libm`. -/
def powF (x y : F64) : EvalRes :=
  match y with
  | .zero _ => .val (.float (.fin (qofInt 1)))
  | _ =>
    if x == .fin (qofInt 1) then .val (.float x)
    else
      match x, y with
      | .nan, _ => .val (.float .nan)
      | _, .nan => .val (.float .nan)
      | x', .inf t =>
        if x' == .fin (qofInt (-1)) then .val (.float (.fin (qofInt 1)))
        else if t == x'.absGtOne then .val (.float (.zero false))
        else .val (.float (.inf false))
      | .inf s, y' =>
        let neg := s && y'.isOddInt
        if y'.isPos then .val (.float (.inf neg)) else .val (.float (.zero neg))
      | .zero s, y' =>
        if y'.isPos then .val (.float (.zero (s && y'.isOddInt))) else .exc
      | .fin _, .zero _ => .val (.float (.fin (qofInt 1)))
      | .fin q, .fin w =>
        if w.den == 1 then
          let e := w.num
          let r :=
            if e < 0 then qInv (qpow ((-e).toNat + 1) q (-e).toNat)
            else qpow (e.toNat + 1) q e.toNat
          match roundF64 r with
          | .inf _ => .exc
          | f => .val (.float f)
        else .libm

/-- Convert a Python value to float for mixed arithmetic: `none` is a
`TypeError` (tuple) or `OverflowError` (int too large). -/
def toF : PyVal → Option F64
  | .int n => intToF n
  | .float f => some f
  | .tup => none

/-- Apply a float operation after converting both operands. -/
def floatOp2 (op : F64 → F64 → F64) (a b : PyVal) : EvalRes :=
  match toF a, toF b with
  | some x, some y => .val (.float (op x y))
  | _, _ => .exc

/-- Python `+`: exact on ints, IEEE on floats (ints convert, possibly with
`OverflowError`), tuple concatenation on `() + ()`, `TypeError` on a tuple
mixed with a number. -/
def pyAdd : PyVal → PyVal → EvalRes
  | .int m, .int n => .val (.int (m + n))
  | .tup, .tup => .val .tup
  | .tup, _ => .exc
  | _, .tup => .exc
  | a, b => floatOp2 addF a b

/-- Python binary `-`: no tuple case (`() - ()` is a `TypeError`). -/
def pySub : PyVal → PyVal → EvalRes
  | .int m, .int n => .val (.int (m - n))
  | .tup, _ => .exc
  | _, .tup => .exc
  | a, b => floatOp2 subF a b

/-- Python `*`: exact on ints, IEEE on floats, sequence repetition
`() * int = int * () = ()`, `TypeError` otherwise. -/
def pyMul : PyVal → PyVal → EvalRes
  | .int m, .int n => .val (.int (m * n))
  | .tup, .int _ => .val .tup
  | .int _, .tup => .val .tup
  | .tup, _ => .exc
  | _, .tup => .exc
  | a, b => floatOp2 mulF a b

/-- Python `/`: `ZeroDivisionError` on a zero divisor; `int / int` is
CPython's `long_true_divide` — the exact quotient correctly rounded, with
`OverflowError` when it exceeds the double range; mixed operands convert
to float (conversion `OverflowError` precedes the zero-divisor check, as
in CPython's method dispatch). -/
def pyDiv : PyVal → PyVal → EvalRes
  | .tup, _ => .exc
  | _, .tup => .exc
  | .int m, .int n =>
    if n = 0 then .exc
    else
      match roundF64 (qDiv (qofInt m) (qofInt n)) with
      | .inf _ => .exc
      | f => .val (.float f)
  | a, b =>
    match toF a, toF b with
    | some x, some y =>
      match y with
      | .zero _ => .exc
      | _ => .val (.float (divFRaw x y))
    | _, _ => .exc

/-- Python `//`: `ZeroDivisionError` on a zero divisor; exact floor
division on ints (`Int.fdiv` is Python's floor convention); CPython's
`float_divmod` logic once a float is involved. -/
def pyFloorDiv : PyVal → PyVal → EvalRes
  | .tup, _ => .exc
  | _, .tup => .exc
  | .int m, .int n => if n = 0 then .exc else .val (.int (Int.fdiv m n))
  | a, b =>
    match toF a, toF b with
    | some x, some y =>
      match y with
      | .zero _ => .exc
      | _ => .val (.float (floordivF x y))
    | _, _ => .exc

/-- Python `**`: exact unbounded integers for `int ** nonnegative int`
(CPython's `MemoryError` on astronomically large results is
machine-dependent and outside the model); a negative int exponent turns
both operands into floats, as does any float operand (conversion may raise
`OverflowError`); then `powF`. -/
def pyPow : PyVal → PyVal → EvalRes
  | .tup, _ => .exc
  | _, .tup => .exc
  | .int m, .int e =>
    if 0 ≤ e then .val (.int (ipow (e.toNat + 1) m e.toNat))
    else
      match intToF m, intToF e with
      | some x, some y => powF x y
      | _, _ => .exc
  | a, b =>
    match toF a, toF b with
    | some x, some y => powF x y
    | _, _ => .exc

/-- Python unary `-`: `TypeError` on the tuple. -/
def pyNegV : PyVal → EvalRes
  | .int n => .val (.int (-n))
  | .float f => .val (.float (negF f))
  | .tup => .exc

/-- Python unary `+`: identity on numbers, `TypeError` on the tuple. -/
def pyPosV : PyVal → EvalRes
  | .tup => .exc
  | v => .val v

/-- Decimal value of a digit run. -/
def digitsVal (ds : List Char) : Nat :=
  ds.foldl (fun acc c => acc * 10 + (c.toNat - '0'.toNat)) 0

/-- CPython number literal over digits and dots: an integer literal may not
have a leading zero unless it consists of zeros only; a float literal needs
exactly one dot and at least one digit, its exact decimal value rounded
half-even to binary64 as `strtod` does (a huge literal silently becomes
infinity, a tiny one zero). -/
def validNum (run : List Char) : Option PyVal :=
  let dots := run.countP (fun c => c == '.')
  if dots == 0 then
    if run.length > 1 && run.head? == some '0' && run.any (fun c => c != '0') then
      none
    else some (.int (digitsVal run))
  else if dots == 1 && run.any Char.isDigit then
    let ip := run.takeWhile (fun c => c != '.')
    let fp := (run.dropWhile (fun c => c != '.')).drop 1
    let scale := npow2 (fp.length + 1) 10 fp.length
    some (.float (roundF64
      (mkRat (Int.ofNat (digitsVal ip * scale + digitsVal fp)) scale)))
  else none

/-- Tokens of the arithmetic subset reachable through `_handle_math`'s
character filter. -/
inductive Tok where
  | num (v : PyVal)
  | plus
  | minus
  | star
  | dstar
  | slash
  | dslash
  | lpar
  | rpar
  deriving DecidableEq, Repr

/-- Characters a number literal is lexed from. -/
def numChar (c : Char) : Bool := c.isDigit || c == '.'

/-- CPython tokenizer on the filtered character set, with fuel
(`length + 1` suffices: every step consumes at least one character).
`**` and `//` lex as single operators, as in Python. -/
def tokenizeF : Nat → List Char → Option (List Tok)
  | 0, _ => none
  | _ + 1, [] => some []
  | f + 1, c :: rest =>
    if c.isWhitespace then tokenizeF f rest
    else if numChar c then
      match validNum (List.takeWhile numChar (c :: rest)) with
      | some v => (tokenizeF f (List.dropWhile numChar (c :: rest))).map (Tok.num v :: ·)
      | none => none
    else if c == '+' then (tokenizeF f rest).map (Tok.plus :: ·)
    else if c == '-' then (tokenizeF f rest).map (Tok.minus :: ·)
    else if c == '*' then
      match rest with
      | '*' :: rest2 => (tokenizeF f rest2).map (Tok.dstar :: ·)
      | _ => (tokenizeF f rest).map (Tok.star :: ·)
    else if c == '/' then
      match rest with
      | '/' :: rest2 => (tokenizeF f rest2).map (Tok.dslash :: ·)
      | _ => (tokenizeF f rest).map (Tok.slash :: ·)
    else if c == '(' then (tokenizeF f rest).map (Tok.lpar :: ·)
    else if c == ')' then (tokenizeF f rest).map (Tok.rpar :: ·)
    else none

/-- Tokenizer at adequate fuel. -/
def tokenize (s : List Char) : Option (List Tok) := tokenizeF (s.length + 1) s

/-- State of a parse: a value with the remaining tokens, or a raised
exception, or a platform-`libm`-dependent evaluation (see `EvalRes`). -/
inductive PRes where
  | ok (v : PyVal) (ts : List Tok)
  | exc
  | libm

/-- Continue a parse with the result of an evaluation step. -/
def appRes (r : EvalRes) (cont : PyVal → PRes) : PRes :=
  match r with
  | .val v => cont v
  | .exc => .exc
  | .libm => .libm

mutual

/-- Python `a_expr ::= m_expr | a_expr ("+"|"-") m_expr`. -/
def parseAdd : Nat → List Tok → PRes
  | 0, _ => .exc
  | f + 1, ts =>
    match parseMul f ts with
    | .ok v rest => parseAddR f v rest
    | r => r

/-- Left-recursion of `a_expr` unrolled into a loop. -/
def parseAddR : Nat → PyVal → List Tok → PRes
  | 0, _, _ => .exc
  | f + 1, v, Tok.plus :: ts =>
    match parseMul f ts with
    | .ok w rest => appRes (pyAdd v w) (fun u => parseAddR f u rest)
    | r => r
  | f + 1, v, Tok.minus :: ts =>
    match parseMul f ts with
    | .ok w rest => appRes (pySub v w) (fun u => parseAddR f u rest)
    | r => r
  | _ + 1, v, ts => .ok v ts

/-- Python `m_expr ::= u_expr | m_expr ("*"|"/"|"//") u_expr`. -/
def parseMul : Nat → List Tok → PRes
  | 0, _ => .exc
  | f + 1, ts =>
    match parseUnary f ts with
    | .ok v rest => parseMulR f v rest
    | r => r

/-- Left-recursion of `m_expr` unrolled into a loop. -/
def parseMulR : Nat → PyVal → List Tok → PRes
  | 0, _, _ => .exc
  | f + 1, v, Tok.star :: ts =>
    match parseUnary f ts with
    | .ok w rest => appRes (pyMul v w) (fun u => parseMulR f u rest)
    | r => r
  | f + 1, v, Tok.slash :: ts =>
    match parseUnary f ts with
    | .ok w rest => appRes (pyDiv v w) (fun u => parseMulR f u rest)
    | r => r
  | f + 1, v, Tok.dslash :: ts =>
    match parseUnary f ts with
    | .ok w rest => appRes (pyFloorDiv v w) (fun u => parseMulR f u rest)
    | r => r
  | _ + 1, v, ts => .ok v ts

/-- Python `u_expr ::= power | "-" u_expr | "+" u_expr` (unary `+` is a
`TypeError` on the tuple, so it is not the identity on parses). -/
def parseUnary : Nat → List Tok → PRes
  | 0, _ => .exc
  | f + 1, Tok.plus :: ts =>
    match parseUnary f ts with
    | .ok v rest => appRes (pyPosV v) (fun u => .ok u rest)
    | r => r
  | f + 1, Tok.minus :: ts =>
    match parseUnary f ts with
    | .ok v rest => appRes (pyNegV v) (fun u => .ok u rest)
    | r => r
  | f + 1, ts => parsePow f ts

/-- Python `power ::= primary ["**" u_expr]` (right associative). -/
def parsePow : Nat → List Tok → PRes
  | 0, _ => .exc
  | f + 1, ts =>
    match parseAtom f ts with
    | .ok v (Tok.dstar :: rest) =>
      match parseUnary f rest with
      | .ok w rest2 => appRes (pyPow v w) (fun u => .ok u rest2)
      | r => r
    | r => r

/-- Python `primary ::= number | "(" ")" | "(" expression ")"` on this
token set (`()` is the empty tuple). -/
def parseAtom : Nat → List Tok → PRes
  | 0, _ => .exc
  | _ + 1, Tok.num v :: ts => .ok v ts
  | _ + 1, Tok.lpar :: Tok.rpar :: ts => .ok .tup ts
  | f + 1, Tok.lpar :: ts =>
    match parseAdd f ts with
    | .ok v (Tok.rpar :: rest) => .ok v rest
    | .ok _ _ => .exc
    | r => r
  | _ + 1, _ => .exc

end

/-- Python `eval` restricted to the arithmetic subset reachable through the
`allowed_chars` filter of `_handle_math`: `+ - * / // **`, unary sign,
parentheses, the empty tuple, int and binary64 float literals.
`EvalRes.exc` stands for any exception raised by `eval` (the handler's
`except: pass` does not distinguish them); `EvalRes.libm` marks the
platform-dependent `pow` evaluations (see `EvalRes`). -/
def evalArith (s : List Char) : EvalRes :=
  match tokenize s with
  | some ts =>
    match parseAdd (s.length * 8 + 32) ts with
    | .ok v [] => .val v
    | .ok _ (_ :: _) => .exc
    | .exc => .exc
    | .libm => .libm
  | none => .exc

/-- Binary search for `e` with `10^e ≤ a < 10^(e+1)`, given the invariant
`10^lo ≤ a < 10^hi`. -/
def elog10In : Nat → Int → Int → Rat → Int
  | 0, lo, _, _ => lo
  | f + 1, lo, hi, a =>
    if hi ≤ lo + 1 then lo
    else
      let mid := Int.fdiv (lo + hi) 2
      if qLe (pow10Q mid) a then elog10In f mid hi a else elog10In f lo mid a

/-- The correctly rounded (half-even) `p` significant decimal digits of
`a`, with the decimal exponent (bumped on a `999.. → 1000..` carry). -/
def digitsAt (a : Rat) (E10 : Int) (p : Nat) : Nat × Int :=
  let k : Int := E10 - (p : Int) + 1
  let d := (rne (qMul a (pow10Q (-k)))).toNat
  if npow2 (p + 1) 10 p ≤ d then (d / 10, E10 + 1) else (d, E10)

/-- Do these decimal digits round back to exactly the given double? -/
def roundTrip (f : F64) (d : Nat) (E : Int) (p : Nat) : Bool :=
  roundF64 (qMul (qofInt (Int.ofNat d)) (pow10Q (E - (p : Int) + 1))) == f

/-- Shortest-round-trip digit search, precision 1 to 17 (17 significant
digits always round-trip a double) — the contract of CPython's
`repr(float)`. -/
def reprLoop (a : Rat) (f : F64) (E10 : Int) : Nat → Nat → Nat × Int × Nat
  | 0, p =>
    let (d, E) := digitsAt a E10 p
    (d, E, p)
  | fuel + 1, p =>
    let (d, E) := digitsAt a E10 p
    if 17 ≤ p || roundTrip f d E p then (d, E, p)
    else reprLoop a f E10 fuel (p + 1)

/-- `n` zero characters. -/
def zerosStr (n : Nat) : String := String.mk (List.replicate n '0')

/-- Positional float formatting (`123.45`, `1000000000000000.0`,
`0.30000000000000004`), used when `-4 ≤ E < 16`. -/
def fmtPos (ds : String) (E : Int) (p : Nat) : String :=
  if (p : Int) - 1 ≤ E then ds ++ zerosStr (E - (p : Int) + 1).toNat ++ ".0"
  else if 0 ≤ E then
    String.mk (ds.data.take (E.toNat + 1)) ++ "." ++
      String.mk (ds.data.drop (E.toNat + 1))
  else "0." ++ zerosStr ((-E).toNat - 1) ++ ds

/-- Scientific float formatting (`1e+16`, `1.5e-05`): the exponent always
carries a sign and at least two digits. -/
def fmtSci (ds : String) (E : Int) : String :=
  let mant :=
    if ds.data.length ≤ 1 then ds
    else String.mk (ds.data.take 1) ++ "." ++ String.mk (ds.data.drop 1)
  let ea := (if E < 0 then -E else E).toNat
  mant ++ "e" ++ (if E < 0 then "-" else "+") ++
    (if ea < 10 then "0" ++ toString ea else toString ea)

/-- CPython `repr` / `str` of a float, as interpolated by the handler's
f-string: shortest decimal digits that round-trip, positional for decimal
exponents in `[-4, 16)` and scientific otherwise; `inf`, `nan` and signed
zeros by name. -/
def reprF64 : F64 → String
  | .nan => "nan"
  | .inf s => if s then "-inf" else "inf"
  | .zero s => if s then "-0.0" else "0.0"
  | .fin q =>
    let s := q.num < 0
    let a := qAbs q
    let E10 := elog10In 16 (-325) 310 a
    let (d, E, p) := reprLoop a (.fin a) E10 20 1
    let ds := toString d
    (if s then "-" else "") ++
      (if -4 ≤ E && E < 16 then fmtPos ds E p else fmtSci ds E)

/-- Python `f"The answer is {result}"` value rendering: ints in decimal
(unbounded), floats by `repr`, the empty tuple as `()`. -/
def pyRepr : PyVal → String
  | .int n => toString n
  | .float f => reprF64 f
  | .tup => "()"

/-- The fixed help string of `_handle_math` (local_ai_brain.py line 237). -/
def mathHelp : String :=
  "I can help with basic math! Try asking me something like 'what is 15 plus 7' or '10 times 3'"

/-- `LocalAIBrain._handle_math` (local_ai_brain.py 219-241): leftmost class
run, stripped; if every character is in `allowed_chars`, the expression is
evaluated and embedded in the answer sentence; every exception path lands
on the fixed help string (the inner `except: pass` falls through to it,
and the outer `except` is unreachable in this total model).  The
platform-`libm` evaluations (see `EvalRes`) also map to the help string
here as a stated approximation — the source's reply there depends on the
host's C library, and no theorem below relies on this case. -/
def handleMath (input : String) : String :=
  match firstRun input.data with
  | some run =>
    let expr := trimWs run
    if expr.all allowedChar then
      match evalArith expr with
      | .val v => "The answer is " ++ pyRepr v
      | .exc => mathHelp
      | .libm => mathHelp
    else mathHelp
  | none => mathHelp

/-- Maximal runs of `isMathChar` characters, in order of occurrence, with
fuel (`length + 1` suffices: every step consumes at least one character). -/
def classRunsF : Nat → List Char → List (List Char)
  | 0, _ => []
  | _ + 1, [] => []
  | f + 1, c :: rest =>
    if isMathChar c then
      List.takeWhile isMathChar (c :: rest) ::
        classRunsF f (List.dropWhile isMathChar rest)
    else classRunsF f rest

/-- Modelled from the spec: "extract the longest contiguous substring
matching the character class" — the longest maximal run (leftmost among
equals).  The code itself uses `re.search`, i.e. `firstRun`, the leftmost
run; the two are compared in the claim-5 counterexample. -/
def specLongestClassRun (s : List Char) : List Char :=
  (classRunsF (s.length + 1) s).foldl
    (fun best r => if best.length < r.length then r else best) []

/-- Keyword list of the greeting check (local_ai_brain.py line 177). -/
def greetingWords : List String :=
  ["hello", "hi", "hey", "good morning", "good afternoon", "good evening"]

/-- Keyword list of the goodbye check (line 181). -/
def goodbyeWords : List String :=
  ["goodbye", "bye", "see you", "farewell", "quit", "exit"]

/-- Keyword list of the thanks check (line 185). -/
def thanksWords : List String := ["thank", "thanks", "appreciate"]

/-- Keyword list of the time-query check (line 189). -/
def timeWords : List String := ["time", "clock", "hour"]

/-- Keyword list of the date-query check (line 193). -/
def dateWords : List String := ["date", "day", "today", "calendar"]

/-- Keyword list of the weather-query check (line 197). -/
def weatherWords : List String :=
  ["weather", "temperature", "rain", "sunny", "cloudy"]

/-- Keyword list of the math check (line 201). -/
def mathWords : List String :=
  ["calculate", "math", "plus", "minus", "multiply", "divide", "+", "-", "*", "/", "times"]

/-- Keyword list of the robot check (line 205). -/
def robotWords : List String := ["robot", "move", "walk", "drive"]

/-- Keyword list of the capability check (line 209). -/
def capabilityWords : List String :=
  ["can you", "what can", "help", "do", "abilities", "capabilities"]

/-- Keyword list of the self-identity check (line 213). -/
def identityWords : List String :=
  ["who are you", "what are you", "tell me about yourself", "introduce yourself"]

/-- `any(word in text for word in words)`. -/
def containsAny (ws : List String) (text : List Char) : Bool :=
  ws.any (fun w => containsSub w.data text)

/-- The `response_patterns["greeting"]` pool (local_ai_brain.py 93-98). -/
def greetingPool : List String :=
  ["Hello! Great to see you again!",
   "Hi there! How can I help you today?",
   "Hey! What's on your mind?",
   "Good to see you! What would you like to talk about?"]

/-- The `response_patterns["goodbye"]` pool (lines 99-104). -/
def goodbyePool : List String :=
  ["Goodbye! It was great talking with you!",
   "See you later! Have a wonderful day!",
   "Take care! I'll be here when you need me.",
   "Until next time! Stay safe!"]

/-- The `response_patterns["thanks"]` pool (lines 105-110). -/
def thanksPool : List String :=
  ["You're very welcome!",
   "Happy to help!",
   "My pleasure!",
   "Anytime! That's what I'm here for."]

/-- The `response_patterns["unknown"]` pool (lines 111-116). -/
def unknownPool : List String :=
  ["That's an interesting question! I'm still learning about that topic.",
   "I don't have specific information about that right now, but I'd love to help in other ways!",
   "Hmm, that's not in my current knowledge base. Is there something else I can help you with?",
   "I'm not sure about that particular topic, but I'm always eager to learn! What else can I assist you with?"]

/-- The `topics["weather"]["responses"]` pool (lines 44-49). -/
def weatherPool : List String :=
  ["I'd love to help with weather information, but I need internet connectivity for current conditions.",
   "For accurate weather data, I'd need to connect to a weather service."]

/-- The `topics["robot"]["responses"]` pool (lines 68-73). -/
def robotPool : List String :=
  ["I'm designed to be part of a robot companion! Right now I can talk, but in the future I could move around and interact with the physical world.",
   "My robot capabilities are currently in development. For now, I focus on being a great conversational companion!"]

/-- The `topics["capabilities"]["responses"]` pool (lines 74-79). -/
def capabilitiesPool : List String :=
  ["I can have conversations, answer questions, help with basic calculations, tell you the time and date, and much more! What would you like help with?",
   "My main skills include conversation, basic information lookup, time/date queries, and being a friendly companion. How can I assist you today?"]

/-- The self-identity reply (line 214): the f-string built from
`Config.AI_NAME` and `personal_info["purpose"]`. -/
def identityResponse : String :=
  "I'm Haro, I'm your personal AI assistant designed to help with daily tasks. I can help you with many things like answering questions, basic calculations, and friendly conversation!"

/-- The four time/date reply strings embed `datetime.now()` formatted when
the knowledge base is loaded (lines 50-61); they are kept abstract. -/
structure LoadClock where
  timeA : String
  timeB : String
  dateA : String
  dateB : String

/-- The `topics["time"]["responses"]` pool. -/
def timePool (clock : LoadClock) : List String := [clock.timeA, clock.timeB]

/-- The `topics["date"]["responses"]` pool. -/
def datePool (clock : LoadClock) : List String := [clock.dateA, clock.dateB]

/-- `LocalAIBrain._generate_local_response` (local_ai_brain.py 170-217):
the if-chain over `user_input.lower().strip()`, with `k` standing for every
`random.choice` draw and `clock` for the load-time time/date strings.  The
math branch receives the original (uncased) input, as in the source. -/
def generateLocalResponse (clock : LoadClock) (k : Nat) (input : String) : String :=
  let lowered := trimWs (lowerL input.data)
  if containsAny greetingWords lowered then pick k greetingPool
  else if containsAny goodbyeWords lowered then pick k goodbyePool
  else if containsAny thanksWords lowered then pick k thanksPool
  else if containsAny timeWords lowered then pick k (timePool clock)
  else if containsAny dateWords lowered then pick k (datePool clock)
  else if containsAny weatherWords lowered then pick k weatherPool
  else if containsAny mathWords lowered then handleMath input
  else if containsAny robotWords lowered then pick k robotPool
  else if containsAny capabilityWords lowered then pick k capabilitiesPool
  else if containsAny identityWords lowered then identityResponse
  else pick k unknownPool

/-- The response categories, in the spec's fixed priority order. -/
inductive LCategory where
  | greeting
  | goodbye
  | thanks
  | timeQuery
  | dateQuery
  | weatherQuery
  | math
  | robot
  | capability
  | selfIdentity
  | unknown
  deriving DecidableEq, Repr

/-- Modelled from the spec: "deterministic ordered rule matching over the
lower-cased, trimmed utterance — first matching category wins, evaluated in
this fixed priority order: greeting, goodbye, thanks, time-query,
date-query, weather-query, math-expression, robot/capability,
self-identity, else unknown". -/
def classify (input : String) : LCategory :=
  let lowered := trimWs (lowerL input.data)
  if containsAny greetingWords lowered then .greeting
  else if containsAny goodbyeWords lowered then .goodbye
  else if containsAny thanksWords lowered then .thanks
  else if containsAny timeWords lowered then .timeQuery
  else if containsAny dateWords lowered then .dateQuery
  else if containsAny weatherWords lowered then .weatherQuery
  else if containsAny mathWords lowered then .math
  else if containsAny robotWords lowered then .robot
  else if containsAny capabilityWords lowered then .capability
  else if containsAny identityWords lowered then .selfIdentity
  else .unknown

/-- The fixed string pool of each category: the math category's "pool" is
the computed math reply, the self-identity category's is its single fixed
sentence. -/
def categoryPool (clock : LoadClock) (input : String) : LCategory → List String
  | .greeting => greetingPool
  | .goodbye => goodbyePool
  | .thanks => thanksPool
  | .timeQuery => timePool clock
  | .dateQuery => datePool clock
  | .weatherQuery => weatherPool
  | .math => [handleMath input]
  | .robot => robotPool
  | .capability => capabilitiesPool
  | .selfIdentity => [identityResponse]
  | .unknown => unknownPool

/-- The post-System turns "alternate User, Assistant, User, Assistant, ...
in whole pairs". -/
def altUA : List Turn → Bool
  | [] => true
  | _ :: [] => false
  | u :: a :: rest => u.role == "user" && a.role == "assistant" && altUA rest

/-- A member of a nonempty pool is picked, whatever the random index. -/
theorem pick_mem (k : Nat) (pool : List String) (h : pool ≠ []) :
    pick k pool ∈ pool := by
  have hlen : k % pool.length < pool.length :=
    Nat.mod_lt _ (List.length_pos.mpr h)
  unfold pick
  rw [List.getD_eq_getElem?_getD, List.getElem?_eq_getElem hlen]
  exact List.getElem_mem hlen

/-- User turns and assistant turns are disjoint, so together they number at
most the history length. -/
theorem countRole_pair_le (h : List Turn) :
    countRole "user" h + countRole "assistant" h ≤ h.length := by
  induction h with
  | nil => simp [countRole]
  | cons t rest ih =>
    have hcons : ∀ r, countRole r (t :: rest) =
        countRole r rest + (if t.role == r then 1 else 0) := by
      intro r
      simp only [countRole, List.countP_cons]
    rw [hcons, hcons]
    by_cases hu : t.role = "user"
    · have ha : t.role ≠ "assistant" := by simp [hu]
      simp only [hu, List.length_cons]
      simp only [beq_self_eq_true, if_true]
      have : (("user" : String) == "assistant") = false := by decide
      rw [this]
      simp only [Bool.false_eq_true, if_false]
      omega
    · by_cases ha : t.role = "assistant"
      · simp only [ha, List.length_cons, beq_self_eq_true, if_true]
        have : (("assistant" : String) == "user") = false := by decide
        rw [this]
        simp only [Bool.false_eq_true, if_false]
        omega
      · have hu' : (t.role == "user") = false := beq_eq_false_iff_ne.mpr hu
        have ha' : (t.role == "assistant") = false := beq_eq_false_iff_ne.mpr ha
        rw [hu', ha']
        simp only [Bool.false_eq_true, if_false, List.length_cons]
        omega

/-- The trim of `_manage_conversation_history` never makes the history
longer than `2*B + 1` when the budget is at least one exchange. -/
theorem manage_length_le (B : Nat) (hB : 1 ≤ B) (l : List Turn) :
    (manageConversationHistory B l).length ≤ B * 2 + 1 := by
  unfold manageConversationHistory
  simp only []
  split
  · next htrig =>
    rw [List.length_append, List.length_take]
    unfold pyTail
    have h2B : B * 2 + 1 - 1 = B * 2 := by omega
    rw [h2B]
    have : B * 2 ≠ 0 := by omega
    rw [if_neg this, List.length_drop]
    omega
  · next htrig => omega

/-- The trim keeps element 0. -/
theorem manage_head (B : Nat) (l : List Turn) (hl : l ≠ []) :
    (manageConversationHistory B l).head? = l.head? := by
  match l, hl with
  | x :: xs, _ =>
    unfold manageConversationHistory
    simp only []
    split
    · rfl
    · rfl

/-- The trim of a history ending in a given turn still ends in that turn. -/
theorem manage_concat (B : Nat) (h : List Turn) (a : Turn) :
    ∃ pre, manageConversationHistory B (h ++ [a]) = pre ++ [a] := by
  unfold manageConversationHistory
  simp only []
  split
  · next htrig =>
    unfold pyTail
    by_cases hk : B * 2 + 1 - 1 = 0
    · rw [if_pos hk]
      exact ⟨(h ++ [a]).take 1 ++ h, by rw [List.append_assoc]⟩
    · rw [if_neg hk]
      set n := (h ++ [a]).length - (B * 2 + 1 - 1) with hn
      have hlen : (h ++ [a]).length = h.length + 1 := by simp
      have hnle : n ≤ h.length := by
        rw [hn, hlen]
        omega
      refine ⟨(h ++ [a]).take 1 ++ h.drop n, ?_⟩
      rw [List.drop_append_eq_append_drop]
      have : n - h.length = 0 := by omega
      rw [this, List.drop_zero, List.append_assoc]
  · exact ⟨h, rfl⟩

/-- Appending a user turn (and possibly more) keeps element 0. -/
theorem head?_append_of_ne_nil (l₁ l₂ : List Turn) (h : l₁ ≠ []) :
    (l₁ ++ l₂).head? = l₁.head? := by
  match l₁, h with
  | x :: xs, _ => rfl

/-- Every `process_input` call — succeeding or failing — preserves element
0 of the history. -/
theorem processInput_head (B : Nat) (res : Except Unit String) (k : Nat)
    (hist : List Turn) (input : String) (sys : Turn)
    (hh : hist.head? = some sys) :
    (processInput B res k hist input).2.head? = some sys := by
  have hne : hist ≠ [] := by
    intro hcon
    rw [hcon] at hh
    exact Option.noConfusion hh
  unfold processInput
  match res with
  | .ok r =>
    simp only []
    rw [manage_head _ _ (by simp),
      head?_append_of_ne_nil _ _ (by simp [hne]),
      head?_append_of_ne_nil _ _ hne, hh]
  | .error e =>
    simp only []
    rw [head?_append_of_ne_nil _ _ hne, hh]

/-- A whole run of `process_input` calls preserves element 0. -/
theorem runCalls_head (B : Nat) (calls : List Call) (h : List Turn)
    (sys : Turn) (hh : h.head? = some sys) :
    (runCalls B calls h).head? = some sys := by
  induction calls generalizing h with
  | nil => exact hh
  | cons c rest ih =>
    match c with
    | (input, res, k) =>
      exact ih _ (processInput_head B res k h input sys hh)

/-- An alternating history has an even number of post-System turns. -/
theorem altUA_even (l : List Turn) (h : altUA l = true) : Even l.length := by
  induction l using altUA.induct with
  | case1 => simp
  | case2 t =>
    rw [altUA] at h
    exact absurd h (by simp)
  | case3 u a rest ih =>
    rw [altUA] at h
    simp only [Bool.and_eq_true] at h
    have := ih h.2
    simp only [List.length_cons]
    obtain ⟨m, hm⟩ := this
    exact ⟨m + 1, by omega⟩

/-- Appending one whole user/assistant pair preserves alternation. -/
theorem altUA_append_pair (l : List Turn) (x y : String)
    (h : altUA l = true) :
    altUA (l ++ [⟨"user", x⟩, ⟨"assistant", y⟩]) = true := by
  induction l using altUA.induct with
  | case1 => simp [altUA]
  | case2 t =>
    rw [altUA] at h
    exact absurd h (by simp)
  | case3 u a rest ih =>
    rw [altUA] at h
    simp only [Bool.and_eq_true] at h
    have := ih h.2
    simp only [List.cons_append, altUA, h.1.1, h.1.2, Bool.true_and]
    exact this

/-- Dropping an even number of leading turns preserves alternation. -/
theorem altUA_drop_even (k : Nat) (l : List Turn) (h : altUA l = true) :
    altUA (l.drop (2 * k)) = true := by
  induction k generalizing l with
  | zero => simpa using h
  | succ m ih =>
    match l with
    | [] => simp [altUA]
    | [t] =>
      rw [altUA] at h
      exact absurd h (by simp)
    | u :: a :: rest =>
      rw [altUA] at h
      simp only [Bool.and_eq_true] at h
      have hdrop : (u :: a :: rest).drop (2 * (m + 1)) = rest.drop (2 * m) := by
        have : 2 * (m + 1) = 2 * m + 1 + 1 := by omega
        rw [this]
        rfl
      rw [hdrop]
      exact ih rest h.2

/-- C2: if the Responder raises during `process_input`, the call returns one
of the three fixed fallback apology strings, no exception escapes (the
modelled call is a total function), and the history grows by exactly the
one User turn — no Assistant turn of error text is appended for the failed
attempt. -/
theorem claim2_responder_failure_fallback (B k : Nat) (hist : List Turn)
    (input : String) :
    (processInput B (.error ()) k hist input).1 ∈ errorResponses ∧
    (processInput B (.error ()) k hist input).2 = hist ++ [⟨"user", input⟩] := by
  constructor
  · exact pick_mem k errorResponses (by decide)
  · rfl

/-- C6 (code bug): the `timeout` argument of `wait_until_done` is dead —
the call behaves identically for every timeout value, and when the queue
never drains the call never returns control at all, contradicting both the
claim and the function's own docstring ("Returns: True if completed, False
if timeout"). -/
theorem claim6_wait_timeout_dead :
    (∀ t q, waitUntilDone (some t) q = waitUntilDone none q) ∧
    (∀ t, waitUntilDone (some t) false = none) :=
  ⟨fun _ _ => rfl, fun _ => rfl⟩

/-- C7: two texts enqueued without interruption are rendered by the worker
in strict FIFO order — exactly `a` then `b`. -/
theorem claim7_fifo_order (a b : String)
    (ha : a.data.all Char.isWhitespace = false)
    (hb : b.data.all Char.isWhitespace = false) :
    runWorker (speak b false (speak a false [])) = [a, b] := by
  unfold speak
  rw [ha, hb]
  simp [runWorker]

/-- Witness for C7 at the spec's own example `enqueue("a"); enqueue("b")`. -/
theorem claim7_fifo_order_witness :
    ("a".data.all Char.isWhitespace = false) ∧
    ("b".data.all Char.isWhitespace = false) ∧
    runWorker (speak "b" false (speak "a" false [])) = ["a", "b"] :=
  ⟨by decide, by decide, claim7_fifo_order "a" "b" (by decide) (by decide)⟩

/-- C8: `reset_conversation` leaves the history as exactly the single
System turn, leaves the `user_context` mapping untouched, and immediately
afterwards `total_exchanges` is 0. -/
theorem claim8_reset_frame (sys : Turn) (st : BrainState) :
    (resetConversation sys st).conversationHistory = [sys] ∧
    (resetConversation sys st).userContext = st.userContext ∧
    totalExchanges (resetConversation sys st).conversationHistory = 0 :=
  ⟨rfl, rfl, rfl⟩

/-- C10: a `process_input` call that completes without the failure path
returns exactly the generated reply, and after the call the last history
element is the Assistant turn carrying that reply — eviction never removes
the just-appended Assistant turn.  This covers both brains: `res = .ok r`
is the successful outcome of either generation step. -/
theorem claim10_reply_is_last_turn (B k : Nat) (hist : List Turn)
    (input r : String) :
    (processInput B (.ok r) k hist input).1 = r ∧
    (processInput B (.ok r) k hist input).2.getLast? =
      some ⟨"assistant", r⟩ := by
  refine ⟨rfl, ?_⟩
  show (manageConversationHistory B
      ((hist ++ [⟨"user", input⟩]) ++ [⟨"assistant", r⟩])).getLast? = _
  obtain ⟨pre, hpre⟩ :=
    manage_concat B (hist ++ [⟨"user", input⟩]) ⟨"assistant", r⟩
  rw [hpre, List.getLast?_concat]

/-- Splitting a run of calls at any point. -/
theorem runCalls_append (B : Nat) (l₁ l₂ : List Call) (h : List Turn) :
    runCalls B (l₁ ++ l₂) h = runCalls B l₂ (runCalls B l₁ h) := by
  induction l₁ generalizing h with
  | nil => rfl
  | cons c rest ih =>
    match c with
    | (input, res, k) =>
      exact ih _

/-- A history headed by the System turn has at most `length - 1` user and
assistant turns together. -/
theorem count_bound_of_sys_head (h2 : List Turn) (sys : Turn) (n : Nat)
    (hsys : sys.role = "system") (hh : h2.head? = some sys)
    (hlen : h2.length ≤ n + 1) :
    countRole "user" h2 + countRole "assistant" h2 ≤ n := by
  match h2, hh with
  | t :: ts, hh =>
    have ht : t = sys := by
      simpa using hh
    subst ht
    have hu : (t.role == "user") = false := by
      rw [hsys]
      decide
    have ha : (t.role == "assistant") = false := by
      rw [hsys]
      decide
    have hcu : countRole "user" (t :: ts) = countRole "user" ts := by
      simp [countRole, List.countP_cons, hu]
    have hca : countRole "assistant" (t :: ts) = countRole "assistant" ts := by
      simp [countRole, List.countP_cons, ha]
    rw [hcu, hca]
    have := countRole_pair_le ts
    simp only [List.length_cons] at hlen
    omega

/-- C1 amended: in every run started from the single System turn, element 0
stays that System turn after every call (succeeding or failing), and after
every call whose responder succeeds the history holds at most `2*B` user
and assistant turns.  A call whose responder fails appends its User turn
without running the eviction, so the bound can be exceeded right after a
failed call (see the counterexample). -/
theorem claim1_amended_history_bound (B : Nat) (hB : 1 ≤ B) (sys : Turn)
    (hsys : sys.role = "system") (calls : List Call) :
    (runCalls B calls [sys]).head? = some sys ∧
    ∀ input r k,
      countRole "user" (runCalls B (calls ++ [(input, Except.ok r, k)]) [sys]) +
        countRole "assistant" (runCalls B (calls ++ [(input, Except.ok r, k)]) [sys]) ≤
        B * 2 := by
  constructor
  · exact runCalls_head B calls [sys] sys rfl
  · intro input r k
    rw [runCalls_append]
    set h0 := runCalls B calls [sys] with hh0
    have hhead : h0.head? = some sys := runCalls_head B calls [sys] sys rfl
    show countRole "user" (processInput B (Except.ok r) k h0 input).2 +
        countRole "assistant" (processInput B (Except.ok r) k h0 input).2 ≤ B * 2
    have hstep : (processInput B (Except.ok r) k h0 input).2.head? = some sys :=
      processInput_head B (Except.ok r) k h0 input sys hhead
    have hlen : (processInput B (Except.ok r) k h0 input).2.length ≤ B * 2 + 1 := by
      show (manageConversationHistory B _).length ≤ B * 2 + 1
      exact manage_length_le B hB _
    exact count_bound_of_sys_head _ sys (B * 2) hsys hstep hlen

/-- Witness for C1 amended: a failing call followed by a successful one,
with the source's budget `B = 10`. -/
theorem claim1_amended_witness :
    (1 ≤ Config.MAX_CONVERSATION_HISTORY) ∧
    (runCalls Config.MAX_CONVERSATION_HISTORY [("hi", Except.error (), 0)]
        [⟨"system", "s"⟩]).head? = some ⟨"system", "s"⟩ ∧
    countRole "user" (runCalls Config.MAX_CONVERSATION_HISTORY
        ([("hi", Except.error (), 0)] ++ [("there", Except.ok "hello", 1)])
        [⟨"system", "s"⟩]) +
      countRole "assistant" (runCalls Config.MAX_CONVERSATION_HISTORY
        ([("hi", Except.error (), 0)] ++ [("there", Except.ok "hello", 1)])
        [⟨"system", "s"⟩]) ≤ Config.MAX_CONVERSATION_HISTORY * 2 :=
  ⟨by decide,
   (claim1_amended_history_bound Config.MAX_CONVERSATION_HISTORY (by decide)
      ⟨"system", "s"⟩ rfl [("hi", Except.error (), 0)]).1,
   (claim1_amended_history_bound Config.MAX_CONVERSATION_HISTORY (by decide)
      ⟨"system", "s"⟩ rfl [("hi", Except.error (), 0)]).2 "there" "hello" 1⟩

/-- C1 as stated is false: with budget `B = 10`, eleven successful calls
fill the history to 20 user/assistant turns, and a twelfth call whose
responder fails appends its User turn with no eviction — 21 user/assistant
turns, exceeding `2 * B = 20`, right after a `process()` call. -/
theorem claim1_counterexample :
    countRole "user" (runCalls Config.MAX_CONVERSATION_HISTORY
        (List.replicate 11 ("u", Except.ok "r", 0) ++ [("u", Except.error (), 0)])
        [⟨"system", "s"⟩]) +
      countRole "assistant" (runCalls Config.MAX_CONVERSATION_HISTORY
        (List.replicate 11 ("u", Except.ok "r", 0) ++ [("u", Except.error (), 0)])
        [⟨"system", "s"⟩]) = 21 ∧
    ¬(21 ≤ Config.MAX_CONVERSATION_HISTORY * 2) := by
  constructor
  · decide
  · decide

/-- The trim preserves "System turn followed by an alternating tail". -/
theorem manage_alt (B : Nat) (hB : 1 ≤ B) (sys : Turn) (t1 : List Turn)
    (halt : altUA t1 = true) :
    ∃ t2, manageConversationHistory B (sys :: t1) = sys :: t2 ∧
      altUA t2 = true := by
  unfold manageConversationHistory
  simp only []
  split
  · next htrig =>
    have hk : B * 2 + 1 - 1 = B * 2 := by omega
    have hkne : B * 2 ≠ 0 := by omega
    unfold pyTail
    rw [hk, if_neg hkne]
    have htl : t1.length > B * 2 := by
      simp only [List.length_cons] at htrig
      omega
    have hdropeq : (sys :: t1).drop ((sys :: t1).length - B * 2) =
        t1.drop (t1.length - B * 2) := by
      have h1 : (sys :: t1).length = t1.length + 1 := rfl
      rw [h1]
      have h2 : t1.length + 1 - B * 2 = (t1.length - B * 2) + 1 := by omega
      rw [h2]
      rfl
    rw [hdropeq]
    have heven : Even t1.length := altUA_even t1 halt
    obtain ⟨j, hj⟩ := heven
    have hm : t1.length - B * 2 = 2 * (j - B) := by omega
    refine ⟨t1.drop (t1.length - B * 2), by simp, ?_⟩
    rw [hm]
    exact altUA_drop_even (j - B) t1 halt
  · exact ⟨t1, rfl, halt⟩

/-- Any run of successful calls keeps the history as the System turn
followed by whole alternating user/assistant pairs. -/
theorem runCalls_alt (B : Nat) (hB : 1 ≤ B) (sys : Turn) (calls : List Call)
    (hok : ∀ c ∈ calls, ∃ r, c.2.1 = Except.ok r) :
    ∀ t, altUA t = true →
      ∃ t2, runCalls B calls (sys :: t) = sys :: t2 ∧ altUA t2 = true := by
  induction calls with
  | nil => exact fun t h => ⟨t, rfl, h⟩
  | cons c rest ih =>
    intro t h
    obtain ⟨input, res, k⟩ := c
    obtain ⟨r, hr⟩ := hok (input, res, k) (List.mem_cons_self _ _)
    simp only [] at hr
    subst hr
    show ∃ t2, runCalls B rest
        (processInput B (Except.ok r) k (sys :: t) input).2 = sys :: t2 ∧
      altUA t2 = true
    have hform : ((sys :: t) ++ [⟨"user", input⟩]) ++ [⟨"assistant", r⟩] =
        sys :: (t ++ [⟨"user", input⟩, ⟨"assistant", r⟩]) := by
      simp
    have halt1 : altUA (t ++ [⟨"user", input⟩, ⟨"assistant", r⟩]) = true :=
      altUA_append_pair t input r h
    obtain ⟨t2, heq, halt2⟩ := manage_alt B hB sys _ halt1
    show ∃ t3, runCalls B rest (manageConversationHistory B
        (((sys :: t) ++ [⟨"user", input⟩]) ++ [⟨"assistant", r⟩])) = sys :: t3 ∧
      altUA t3 = true
    rw [hform, heq]
    exact ih (fun c hc => hok c (List.mem_cons_of_mem _ hc)) t2 halt2

/-- C3 amended: in every run in which each call's responder succeeds, after
every `process()` call the post-System turns alternate User, Assistant,
... in whole pairs (the statement quantifies over every call script, hence
covers every prefix of a run).  A failing call appends an unpaired User
turn and breaks alternation — see the counterexample. -/
theorem claim3_amended_alternation (B : Nat) (hB : 1 ≤ B) (sys : Turn)
    (calls : List Call) (hok : ∀ c ∈ calls, ∃ r, c.2.1 = Except.ok r) :
    ∃ t, runCalls B calls [sys] = sys :: t ∧ altUA t = true :=
  runCalls_alt B hB sys calls hok [] rfl

/-- Witness for C3 amended at a two-call successful script with `B = 10`. -/
theorem claim3_amended_witness :
    (1 ≤ Config.MAX_CONVERSATION_HISTORY) ∧
    ∃ t, runCalls Config.MAX_CONVERSATION_HISTORY
        [("hi", Except.ok "hello", 0), ("bye", Except.ok "later", 1)]
        [⟨"system", "s"⟩] = ⟨"system", "s"⟩ :: t ∧ altUA t = true :=
  ⟨by decide,
   claim3_amended_alternation Config.MAX_CONVERSATION_HISTORY (by decide)
     ⟨"system", "s"⟩ [("hi", Except.ok "hello", 0), ("bye", Except.ok "later", 1)]
     (by
       intro c hc
       simp only [List.mem_cons, List.not_mem_nil, or_false] at hc
       rcases hc with h | h
       · exact ⟨"hello", by rw [h]⟩
       · exact ⟨"later", by rw [h]⟩)⟩

/-- C3 as stated is false: a failed call followed by a successful one is a
reachable history in which the first User turn has no immediately following
Assistant turn (and it is not the most recent pair), so the post-System
turns do not alternate in whole pairs after a `process()` call. -/
theorem claim3_counterexample :
    runCalls Config.MAX_CONVERSATION_HISTORY
        [("a", Except.error (), 0), ("b", Except.ok "r", 0)] [⟨"system", "s"⟩] =
      [⟨"system", "s"⟩, ⟨"user", "a"⟩, ⟨"user", "b"⟩, ⟨"assistant", "r"⟩] ∧
    altUA [⟨"user", "a"⟩, ⟨"user", "b"⟩, ⟨"assistant", "r"⟩] = false := by
  constructor
  · decide
  · decide

/-- C4 amended: an utterance with no wake phrase (case-insensitive
substring) is discarded and `Session.process` is never invoked; an
utterance with a wake phrase whose cleaned text is non-empty forwards
exactly the cleaned text (as on the spec's example); and when cleaning
leaves nothing, the fixed acknowledgement prompt is forwarded to
`Session.process` in place of the utterance — so the Responder does run,
on the prompt (the claim's "instead of calling the Responder" is what
fails; see the counterexample). -/
theorem claim4_amended_wake_filter :
    (∀ text : String, containsWakeWord (lowerL text.data) = false →
      processAudio text = none) ∧
    (∀ text : String, containsWakeWord (lowerL text.data) = true →
      trimWs (removeWakeWords (lowerL text.data)) ≠ [] →
      processAudio text =
        some (String.mk (trimWs (removeWakeWords (lowerL text.data))))) ∧
    processAudio "hey haro what time is it" = some "what time is it" ∧
    (∀ text : String, containsWakeWord (lowerL text.data) = true →
      trimWs (removeWakeWords (lowerL text.data)) = [] →
      processAudio text = some ackPrompt ∧ responderInvoked text = true) := by
  refine ⟨?_, ?_, by decide, ?_⟩
  · intro text h
    unfold processAudio
    simp only []
    rw [h]
    simp
  · intro text h hne
    unfold processAudio
    simp only []
    rw [h]
    simp only [if_true]
    have : (trimWs (removeWakeWords (lowerL text.data))).isEmpty = false := by
      cases hc : trimWs (removeWakeWords (lowerL text.data)) with
      | nil => exact absurd hc hne
      | cons x xs => rfl
    rw [this]
    simp
  · intro text h he
    have hpa : processAudio text = some ackPrompt := by
      unfold processAudio
      simp only []
      rw [h, he]
      simp
    exact ⟨hpa, by unfold responderInvoked; rw [hpa]; rfl⟩

/-- Witness for C4 amended at the spec's examples: "what time is it" (no
wake phrase, discarded), "hey haro what time is it" (cleaned text
forwarded), and the bare activation "haro". -/
theorem claim4_amended_witness :
    (containsWakeWord (lowerL "what time is it".data) = false ∧
      processAudio "what time is it" = none) ∧
    (containsWakeWord (lowerL "hey haro what time is it".data) = true ∧
      trimWs (removeWakeWords (lowerL "hey haro what time is it".data)) ≠ [] ∧
      processAudio "hey haro what time is it" =
        some (String.mk (trimWs (removeWakeWords
          (lowerL "hey haro what time is it".data))))) ∧
    (containsWakeWord (lowerL "haro".data) = true ∧
      trimWs (removeWakeWords (lowerL "haro".data)) = [] ∧
      processAudio "haro" = some ackPrompt ∧ responderInvoked "haro" = true) :=
  ⟨⟨by decide, claim4_amended_wake_filter.1 "what time is it" (by decide)⟩,
   ⟨by decide, by decide,
    claim4_amended_wake_filter.2.1 "hey haro what time is it" (by decide) (by decide)⟩,
   ⟨by decide, by decide,
    claim4_amended_wake_filter.2.2.2 "haro" (by decide) (by decide)⟩⟩

/-- C4 as stated is false: on the bare activation "haro" the fixed
acknowledgement prompt is not a substitute for calling the Responder — it
is forwarded to `Session.process`, and the Responder runs on it. -/
theorem claim4_counterexample :
    processAudio "haro" = some "Hello! How can I help you?" ∧
    responderInvoked "haro" = true := by
  constructor
  · decide
  · decide

/-- C5 amended: `_handle_math` extracts the LEFTMOST maximal contiguous
run over the character class (the `re.search` match) — not the longest —
strips it, and when every character of the stripped expression is in
`allowed_chars` and it evaluates to a value, returns a sentence embedding
that value; when evaluation raises, a character falls outside
`allowed_chars`, or no class character exists at all, it returns the fixed
help string.  The modelled handler is total: it never raises.  The
concrete conjuncts pin the model to CPython on the spec's example
(`4*5 → 20`), the empty tuple (`() → "The answer is ()"`), IEEE-754
double rounding (`0.1+0.2 → 0.30000000000000004`), and `OverflowError`
(`10.0**400 → help string`). -/
theorem claim5_amended_math_extraction :
    (∀ input : String, firstRun input.data = none → handleMath input = mathHelp) ∧
    (∀ (input : String) (r : List Char) (v : PyVal),
      firstRun input.data = some r →
      (trimWs r).all allowedChar = true →
      evalArith (trimWs r) = EvalRes.val v →
      handleMath input = "The answer is " ++ pyRepr v) ∧
    (∀ (input : String) (r : List Char),
      firstRun input.data = some r →
      (trimWs r).all allowedChar = true →
      evalArith (trimWs r) = EvalRes.exc →
      handleMath input = mathHelp) ∧
    (∀ (input : String) (r : List Char),
      firstRun input.data = some r →
      (trimWs r).all allowedChar = false →
      handleMath input = mathHelp) ∧
    handleMath "calculate 4*5" = "The answer is 20" ∧
    handleMath "calculate" = mathHelp ∧
    handleMath "calculate ()" = "The answer is ()" ∧
    handleMath "calculate 0.1+0.2" = "The answer is 0.30000000000000004" ∧
    handleMath "calculate 10.0**400" = mathHelp := by
  refine ⟨?_, ?_, ?_, ?_, by decide, by decide, by decide, by decide, by decide⟩
  · intro input h
    unfold handleMath
    rw [h]
  · intro input r v h hall he
    unfold handleMath
    rw [h]
    simp only [hall, if_true, he]
  · intro input r h hall he
    unfold handleMath
    rw [h]
    simp only [hall, if_true, he]
  · intro input r h hall
    unfold handleMath
    rw [h]
    simp only [hall, Bool.false_eq_true, if_false]

/-- Witness for C5 amended at the spec's examples "calculate 4*5" (answer
embeds 20), "calculate" (no class character, help string), and the
raising input "calculate 5/0" (`ZeroDivisionError`). -/
theorem claim5_amended_witness :
    (firstRun "calculate".data = none ∧ handleMath "calculate" = mathHelp) ∧
    (firstRun "calculate 4*5".data = some (' ' :: "4*5".data) ∧
      (trimWs (' ' :: "4*5".data)).all allowedChar = true ∧
      evalArith (trimWs (' ' :: "4*5".data)) = EvalRes.val (PyVal.int 20) ∧
      handleMath "calculate 4*5" = "The answer is " ++ pyRepr (PyVal.int 20)) ∧
    (firstRun "calculate 5/0".data = some (' ' :: "5/0".data) ∧
      (trimWs (' ' :: "5/0".data)).all allowedChar = true ∧
      evalArith (trimWs (' ' :: "5/0".data)) = EvalRes.exc ∧
      handleMath "calculate 5/0" = mathHelp) :=
  ⟨⟨by decide, claim5_amended_math_extraction.1 "calculate" (by decide)⟩,
   ⟨by decide, by decide, by decide,
    claim5_amended_math_extraction.2.1 "calculate 4*5" (' ' :: "4*5".data)
      (PyVal.int 20) (by decide) (by decide) (by decide)⟩,
   ⟨by decide, by decide, by decide,
    claim5_amended_math_extraction.2.2.1 "calculate 5/0" (' ' :: "5/0".data)
      (by decide) (by decide) (by decide)⟩⟩

/-- C5 as stated is false: on "calculate 1+1 then 11+11+11" the longest
class substring strips to "11+11+11", which evaluates to 33, but the code
evaluates the leftmost run "1+1" and answers 2. -/
theorem claim5_counterexample :
    handleMath "calculate 1+1 then 11+11+11" = "The answer is 2" ∧
    trimWs (specLongestClassRun ("calculate 1+1 then 11+11+11").data) =
      "11+11+11".data ∧
    evalArith ("11+11+11").data = EvalRes.val (PyVal.int 33) ∧
    ("The answer is 2" : String) ≠ "The answer is 33" := by
  refine ⟨by decide, by decide, by decide, by decide⟩

set_option maxHeartbeats 1000000 in
/-- C9: the local Responder classifies by ordered first-match rule
matching over the lower-cased trimmed utterance, in the spec's fixed
priority order (`classify` is written from the spec's order), and its
reply always belongs to the matched category's pool — a fixed string pool
for every category except math (computed reply) and self-identity (single
fixed sentence). -/
theorem claim9_ordered_classification (clock : LoadClock) (k : Nat)
    (input : String) :
    generateLocalResponse clock k input ∈
      categoryPool clock input (classify input) := by
  unfold generateLocalResponse classify
  simp only []
  split_ifs
  · exact pick_mem k greetingPool (by decide)
  · exact pick_mem k goodbyePool (by decide)
  · exact pick_mem k thanksPool (by decide)
  · exact pick_mem k (timePool clock) (by simp [timePool])
  · exact pick_mem k (datePool clock) (by simp [datePool])
  · exact pick_mem k weatherPool (by decide)
  · exact List.mem_singleton.mpr rfl
  · exact pick_mem k robotPool (by decide)
  · exact pick_mem k capabilitiesPool (by decide)
  · exact List.mem_singleton.mpr rfl
  · exact pick_mem k unknownPool (by decide)

end AuraMind
